import Mathlib

/-!
Verification of aibis-cloud-tools against its natural-language specification.

The Python sources are shallowly embedded: Python strings become `List Char`,
byte strings become `List Nat`, dictionaries become association lists, and the
stateful TTS-process management of `scripts/claude_code_speaker.py` becomes an
explicit state type with a step relation over interleavings of its threads.
-/

namespace AibisCloudTools

/-! ## Python string primitives

`str.strip()` with no argument removes leading and trailing Unicode whitespace.
`pyWhitespace` lists the code points Python treats as whitespace. -/

def pyWhitespace : List Char :=
  [' ', '\t', '\n', '\r', '\x0b', '\x0c',
   '\x1c', '\x1d', '\x1e', '\x1f', '\x85', '\xa0',
   ' ', ' ', ' ', ' ', ' ', ' ', ' ',
   ' ', ' ', ' ', ' ', ' ',
   ' ', ' ', ' ', ' ', '　']

def pyIsSpace (c : Char) : Bool :=
  pyWhitespace.contains c

/-- Python `str.strip()`: drop leading and trailing whitespace. -/
def pyStrip (l : List Char) : List Char :=
  ((l.dropWhile pyIsSpace).reverse.dropWhile pyIsSpace).reverse

/-- The last character, when there is one, is not whitespace.  This is the
shape of every string the packing loop accumulates (stripped sentences and
suffixes thereof), and is what guarantees flushed chunks are non-empty. -/
def lastNotSpace (l : List Char) : Prop :=
  ∀ a : Char, l.getLast? = some a → pyIsSpace a = false

/-! ## utils.split_text_smart (src/aibis_cloud_tools/utils.py lines 32-86) -/

/-- The sentence terminators of the scanning loop: `char in '。！？\n'`. -/
def sentenceTerminators : List Char := ['。', '！', '？', '\n']

/-- One iteration of the sentence-scanning loop (utils.py lines 46-50):
`temp_sentence += char`; on a terminator, append `temp_sentence.strip()` to
`sentences` and reset `temp_sentence`. -/
def scanStep (acc : List (List Char) × List Char) (c : Char) :
    List (List Char) × List Char :=
  if c ∈ sentenceTerminators then (acc.1 ++ [pyStrip (acc.2 ++ [c])], [])
  else (acc.1, acc.2 ++ [c])

/-- The common trailing pattern of both accumulation loops
(utils.py lines 52-54 and 82-84): append the stripped leftover accumulator
when its stripped form is non-empty. -/
def finalizeChunks (acc : List (List Char) × List Char) : List (List Char) :=
  if pyStrip acc.2 ≠ [] then acc.1 ++ [pyStrip acc.2] else acc.1

/-- The sentence-splitting phase (utils.py lines 43-54): scan all characters,
then append the stripped remainder if it is non-empty
(`if temp_sentence.strip(): sentences.append(temp_sentence.strip())`). -/
def scanSentences (text : List Char) : List (List Char) :=
  finalizeChunks (text.foldl scanStep ([], []))

/-- The forced character-level split loop (utils.py lines 65-67):
`while len(sentence) > max_chars: chunks.append(sentence[:max_chars]);
sentence = sentence[max_chars:]`.  Returns the appended pieces and the final
remainder.  The loop consumes `m ≥ 1` characters per iteration, so
`s.length` iterations of fuel always suffice (`forceSplit` below); for
`m = 0` the Python loop would not terminate, a case outside every claim
(they all assume `max_chars ≥ 1`). -/
def forceSplitGo : Nat → Nat → List Char → List (List Char) × List Char
  | 0, _, s => ([], s)
  | fuel + 1, m, s =>
    if 0 < m ∧ m < s.length then
      let r := forceSplitGo fuel m (s.drop m)
      (s.take m :: r.1, r.2)
    else ([], s)

def forceSplit (m : Nat) (s : List Char) : List (List Char) × List Char :=
  forceSplitGo s.length m s

/-- One iteration of the chunk-packing loop (utils.py lines 57-80).  The
accumulator is `(chunks, current_chunk)`.  First branch: the long-sentence
case flushes `current_chunk` (if non-empty) and force-splits the sentence,
keeping the remainder as the new `current_chunk`. -/
def packStep (m : Nat) (acc : List (List Char) × List Char) (s : List Char) :
    List (List Char) × List Char :=
  if m < s.length then
    ((if acc.2 ≠ [] then acc.1 ++ [pyStrip acc.2] else acc.1) ++ (forceSplit m s).1,
     (forceSplit m s).2)
  else if acc.2.length + s.length ≤ m then
    (acc.1, acc.2 ++ s)
  else
    (if acc.2 ≠ [] then acc.1 ++ [pyStrip acc.2] else acc.1, s)

/-- Embedding of `utils.split_text_smart(text, max_chars)` (utils.py lines 32-86). -/
def split_text_smart (text : List Char) (max_chars : Nat) : List (List Char) :=
  if text = [] then []
  else if text.length ≤ max_chars then [text]
  else finalizeChunks ((scanSentences text).foldl (packStep max_chars) ([], []))

/-! ## utils.load_env_file (src/aibis_cloud_tools/utils.py lines 11-29)

The process environment is an association list (first binding wins, as in a
Python dict built without duplicate keys).  One entry per `.env` line:
strip it, skip blanks / comments / lines without `=`, split at the first
`=`, and set the variable only when the key is not already present. -/

abbrev Env : Type := List (List Char × List Char)

def envProcessLine (env : Env) (rawLine : List Char) : Env :=
  let line := pyStrip rawLine
  if line ≠ [] ∧ line.head? ≠ some '#' ∧ '=' ∈ line then
    let key := pyStrip (line.takeWhile (· != '='))
    let value := pyStrip ((line.dropWhile (· != '=')).drop 1)
    if (List.lookup key env).isNone then env ++ [(key, value)] else env
  else env

def load_env_file (lines : List (List Char)) (env : Env) : Env :=
  lines.foldl envProcessLine env

/-! ## AivisCloudTTS request payloads (src/aibis_cloud_tools/tts.py)

JSON payload values occurring in the two synthesis methods.  The float
parameters are only stored in the payload, never computed with, so they are
modelled as rationals. -/

inductive PyVal
  | str (v : String)
  | bool (v : Bool)
  | num (v : Rat)
deriving DecidableEq

/-- The JSON payload built by `AivisCloudTTS.synthesize_speech`
(tts.py lines 81-93).  `speaking_rate` and `emotional_intensity` are accepted
by the method signature (lines 56-57) but never placed in the payload. -/
def synthesize_speech_payload (text model_uuid : String)
    (speaker_uuid style_name : Option String) (output_format : String)
    (speaking_rate emotional_intensity volume : Rat) : List (String × PyVal) :=
  let payload : List (String × PyVal) :=
    [("model_uuid", PyVal.str model_uuid),
     ("use_ssml", PyVal.bool true),
     ("text", PyVal.str text),
     ("output_format", PyVal.str output_format),
     ("volume", PyVal.num volume)]
  let payload := match speaker_uuid with
    | some u => if u ≠ "" then payload ++ [("speaker_uuid", PyVal.str u)] else payload
    | none => payload
  match style_name with
    | some n => if n ≠ "" then payload ++ [("style_name", PyVal.str n)] else payload
    | none => payload

/-- The JSON payload built by `AivisCloudTTS.synthesize_and_stream`
(tts.py lines 157-171): identical except that `speaking_rate` and
`emotional_intensity` are included. -/
def synthesize_and_stream_payload (text model_uuid : String)
    (speaker_uuid style_name : Option String) (output_format : String)
    (speaking_rate emotional_intensity volume : Rat) : List (String × PyVal) :=
  let payload : List (String × PyVal) :=
    [("model_uuid", PyVal.str model_uuid),
     ("use_ssml", PyVal.bool true),
     ("text", PyVal.str text),
     ("output_format", PyVal.str output_format),
     ("speaking_rate", PyVal.num speaking_rate),
     ("emotional_intensity", PyVal.num emotional_intensity),
     ("volume", PyVal.num volume)]
  let payload := match speaker_uuid with
    | some u => if u ≠ "" then payload ++ [("speaker_uuid", PyVal.str u)] else payload
    | none => payload
  match style_name with
    | some n => if n ≠ "" then payload ++ [("style_name", PyVal.str n)] else payload
    | none => payload

/-! ## AivisCloudTTS error handling (tts.py lines 95-120 and 289-315) -/

/-- The `error_messages` dictionary of `AivisCloudTTS._handle_http_error`
(tts.py lines 293-299). -/
def error_messages (status : Nat) : Option String :=
  match status with
  | 503 => some "Aivis Cloud APIで障害が発生しています (503 Service Unavailable)。しばらく時間を置いてから再度お試しください。"
  | 429 => some "API制限に達しました (429 Too Many Requests)。少し時間を置いてから再度お試しください。"
  | 401 => some "認証エラー (401 Unauthorized)。AIVIS_API_KEY環境変数を確認してください。"
  | 400 => some "リクエストエラー (400 Bad Request)。テキスト内容やパラメータを確認してください。"
  | 500 => some "サーバー内部エラー (500 Internal Server Error)。Aivis Cloud側で問題が発生している可能性があります。"
  | _ => none

/-- The message of the exception raised by `_handle_http_error`
(tts.py lines 301-315); `error_detail` is `response.text`. -/
def handle_http_error_message (status : Nat) (error_detail : String) : String :=
  let base := (error_messages status).getD
    ("API エラーが発生しました: HTTP " ++ toString status)
  if error_detail ≠ "" then base ++ " 詳細: " ++ error_detail else base

/-- The two raise sites of `synthesize_speech`: both raise the bare Python
`Exception` class; the constructors record which site fired and with which
arguments, from which the exact exception message is reconstructed. -/
inductive SynthError
  | httpError (status : Nat) (error_detail : String)
  | bodyJsonError (status_code : Nat) (detail : String)
deriving DecidableEq

def SynthError.message : SynthError → String
  | httpError status d => handle_http_error_message status d
  | bodyJsonError sc d => "API Error: " ++ toString sc ++ " - " ++ d

/-- The status code an error reports: the HTTP status for `_handle_http_error`
(tts.py line 291), the embedded `status_code` field for the JSON-body error
(tts.py line 116).  The `error_messages` dictionary keyed by this number is
the code's only error categorization. -/
def SynthError.reportedStatus : SynthError → Nat
  | httpError status _ => status
  | bodyJsonError sc _ => sc

/-- A synthesis HTTP response as `synthesize_speech` inspects it:
the status code, the body as text (`response.text`), the body bytes
(the accumulated `audio_data`), and the outcome of the body check at
tts.py lines 112-118 — `some (sc, d)` exactly when the body starts with
`{`, decodes as JSON, and the object has both a `status_code` field
(value `sc`) and a `detail` field (value `d`). -/
structure HttpResponse where
  status_code : Nat
  text : String
  audio_data : List Nat
  json_error : Option (Nat × String)

/-- Embedding of `AivisCloudTTS.synthesize_speech` after the POST (tts.py lines 95-120):
non-200 statuses raise via `_handle_http_error`; a 200 body that parses as a
JSON object with `status_code` and `detail` raises the API-error exception;
otherwise the audio bytes are returned. -/
def synthesize_speech_result (r : HttpResponse) : Except SynthError (List Nat) :=
  if r.status_code ≠ 200 then
    Except.error (SynthError.httpError r.status_code r.text)
  else
    match r.json_error with
    | some (sc, d) => Except.error (SynthError.bodyJsonError sc d)
    | none => Except.ok r.audio_data

/-! ## ClaudeResponseWatcher TTS-process management
(src/scripts/claude_code_speaker.py)

State shared between the watcher thread (which runs
`handle_claude_response_tts` / `_play_with_library_sync`), the ESC-monitor
thread (which calls `_kill_current_tts`), and the spawned player processes.
Player processes are identified by a fresh `Nat` pid. -/

structure SpeakerState where
  /-- Field `self.current_tts_process`: the single shared slot, mutated only under
  `self.process_lock`. -/
  currentTtsProcess : Option Nat
  /-- The pids of player child processes currently running (`poll()` is `None`). -/
  aliveProcs : List Nat
  /-- The pids whose `_play_with_library_sync` routine has not yet returned. -/
  playingThreads : List Nat
  /-- The pids whose backing temp file currently exists on disk. -/
  tempFiles : List Nat
  /-- The history of `os.unlink` calls that actually deleted a temp file. -/
  unlinkedFiles : List Nat
  /-- The fresh-pid counter. -/
  nextPid : Nat
deriving DecidableEq

def initSpeaker : SpeakerState :=
  { currentTtsProcess := none, aliveProcs := [], playingThreads := [],
    tempFiles := [], unlinkedFiles := [], nextPid := 0 }

/-- Embedding of `ClaudeResponseWatcher._has_active_tts_process`
(claude_code_speaker.py lines 55-59). -/
def hasActiveTtsProcess (s : SpeakerState) : Bool :=
  match s.currentTtsProcess with
  | some p => s.aliveProcs.contains p
  | none => false

/-- Embedding of `ClaudeResponseWatcher._kill_current_tts`
(claude_code_speaker.py lines 61-84): under `process_lock`, if the slot
holds a live process, terminate it (then `wait`, then `kill` on timeout)
and clear the slot; otherwise do nothing.  No temp file is touched. -/
def killCurrentTts (s : SpeakerState) : SpeakerState :=
  match s.currentTtsProcess with
  | some p =>
    if s.aliveProcs.contains p then
      { s with aliveProcs := s.aliveProcs.erase p, currentTtsProcess := none }
    else s
  | none => s

/-- The first action of `handle_claude_response_tts`
(claude_code_speaker.py lines 265-267): cancel the previous playback before
starting the new message. -/
def ttsStartEntry (s : SpeakerState) : SpeakerState :=
  if hasActiveTtsProcess s then killCurrentTts s else s

/-- A playback session that is both installed in the slot and whose player
process is alive. -/
def isActiveSession (s : SpeakerState) (p : Nat) : Prop :=
  s.currentTtsProcess = some p ∧ p ∈ s.aliveProcs

/-- One atomic step of any of the concurrently scheduled workers.  Each
constructor corresponds to one lock-protected critical section (or one OS
event) of claude_code_speaker.py. -/
inductive SpeakerStep : SpeakerState → SpeakerState → Prop
  /-- Entry of `handle_claude_response_tts` (lines 265-267). -/
  | startNewResponse (s : SpeakerState) :
      SpeakerStep s (ttsStartEntry s)
  /-- Run of `_play_with_library_sync` up to `play_audio_async` (lines 419-432):
  audio synthesized, temp file written, player process spawned. -/
  | spawnPlayback (s : SpeakerState) :
      SpeakerStep s
        { s with
          aliveProcs := s.nextPid :: s.aliveProcs,
          playingThreads := s.nextPid :: s.playingThreads,
          tempFiles := s.nextPid :: s.tempFiles,
          nextPid := s.nextPid + 1 }
  /-- Install step `with self.process_lock: self.current_tts_process = proc`
  (lines 434-435): the new process is installed, overwriting the slot. -/
  | installSession (s : SpeakerState) (p : Nat) (h : p ∈ s.playingThreads) :
      SpeakerStep s { s with currentTtsProcess := some p }
  /-- The ESC-monitor thread calls `_kill_current_tts` (line 133). -/
  | escCancel (s : SpeakerState) :
      SpeakerStep s (killCurrentTts s)
  /-- A player process exits on its own. -/
  | procNaturalExit (s : SpeakerState) (p : Nat) (h : p ∈ s.aliveProcs) :
      SpeakerStep s { s with aliveProcs := s.aliveProcs.erase p }
  /-- The polling loop of `_play_with_library_sync` sees `poll()` report an
  exit (line 440), breaks, and the `finally` block (lines 469-475) deletes
  the temp file (guarded by `os.path.exists`) and clears the slot if it
  still holds this process. -/
  | finishCompleted (s : SpeakerState) (p : Nat)
      (hp : p ∈ s.playingThreads) (hdead : p ∉ s.aliveProcs) :
      SpeakerStep s
        { s with
          playingThreads := s.playingThreads.erase p,
          tempFiles := s.tempFiles.erase p,
          unlinkedFiles :=
            if p ∈ s.tempFiles then p :: s.unlinkedFiles else s.unlinkedFiles,
          currentTtsProcess :=
            if s.currentTtsProcess = some p then none else s.currentTtsProcess }
  /-- The polling loop sees the slot no longer holds its process
  (lines 444-458): it terminates its own process, deletes the temp file and
  returns; the `finally` re-check is a no-op thanks to the
  `os.path.exists` guard, and the slot is left untouched. -/
  | finishCancelled (s : SpeakerState) (p : Nat)
      (hp : p ∈ s.playingThreads) (hrepl : s.currentTtsProcess ≠ some p) :
      SpeakerStep s
        { s with
          playingThreads := s.playingThreads.erase p,
          aliveProcs := s.aliveProcs.erase p,
          tempFiles := s.tempFiles.erase p,
          unlinkedFiles :=
            if p ∈ s.tempFiles then p :: s.unlinkedFiles else s.unlinkedFiles }

/-- States reachable from start-up by any interleaving of the workers. -/
inductive SpeakerReachable : SpeakerState → Prop
  | init : SpeakerReachable initSpeaker
  | step {s t : SpeakerState} :
      SpeakerReachable s → SpeakerStep s t → SpeakerReachable t

/-- Structural invariant of the speaker state: a backing temp file exists
only while its playback routine is still running, routine pids are distinct
and below the fresh-pid counter. -/
def SpeakerInv (s : SpeakerState) : Prop :=
  (∀ p ∈ s.tempFiles, p ∈ s.playingThreads) ∧
  s.playingThreads.Nodup ∧ s.tempFiles.Nodup ∧
  (∀ p ∈ s.playingThreads, p < s.nextPid)

/-! ## The chunk loop of handle_claude_response_tts
(claude_code_speaker.py lines 286-305)

`split_text_smart` cuts the message into chunks; the `for` loop then cleans
and plays every chunk in order.  `outcome i` records how chunk `i`'s playback
ended (the slot still held its process at return: completed; otherwise:
cancelled).  The loop body never inspects this outcome —
`_play_with_library_sync` returns `None` on both paths. -/

inductive PlayOutcome
  | completed
  | cancelled
deriving DecidableEq

/-- The `for i, chunk_text in enumerate(text_chunks, 1)` loop
(lines 293-305): returns, in order, the 1-based indices of the chunks that
are synthesized and played, paired with how their playback ended. -/
def sequencerRun (outcome : Nat → PlayOutcome) :
    Nat → List (List Char) → List (Nat × PlayOutcome)
  | _, [] => []
  | i, _ :: rest => (i, outcome i) :: sequencerRun outcome (i + 1) rest

/-- Embedding of the `handle_claude_response_tts` chunking plus the playback loop
(lines 286-305); `max_chars` is `self.MAX_TEXT_LENGTH` (= 3000) in the
caller, kept as a parameter of `split_text_smart`. -/
def handle_claude_response_tts_plays (content : List Char) (max_chars : Nat)
    (outcome : Nat → PlayOutcome) : List (Nat × PlayOutcome) :=
  sequencerRun outcome 1 (split_text_smart content max_chars)

/-- Embedding of `ClaudeResponseWatcher.MAX_TEXT_LENGTH` (claude_code_speaker.py line 26). -/
def MAX_TEXT_LENGTH : Nat := 3000

/-! ## Lemmas on the Python string primitives -/

theorem dropWhile_eq_self_of (p : Char → Bool) (l : List Char)
    (h : ∀ c ∈ l, p c = false) : l.dropWhile p = l := by
  cases l with
  | nil => rfl
  | cons a l => simp [List.dropWhile_cons, h a (List.mem_cons_self a l)]

theorem pyStrip_eq_self {l : List Char} (h : ∀ c ∈ l, pyIsSpace c = false) :
    pyStrip l = l := by
  unfold pyStrip
  rw [dropWhile_eq_self_of _ _ h]
  rw [dropWhile_eq_self_of _ _ (fun c hc => h c (List.mem_reverse.mp hc))]
  exact List.reverse_reverse l

theorem pyStrip_length_le (l : List Char) : (pyStrip l).length ≤ l.length := by
  unfold pyStrip
  rw [List.length_reverse]
  calc ((l.dropWhile pyIsSpace).reverse.dropWhile pyIsSpace).length
      ≤ (l.dropWhile pyIsSpace).reverse.length :=
        (List.dropWhile_sublist _).length_le
    _ = (l.dropWhile pyIsSpace).length := List.length_reverse _
    _ ≤ l.length := (List.dropWhile_sublist _).length_le

theorem mem_dropWhile_of (p : Char → Bool) {l : List Char} {a : Char}
    (h : a ∈ l) (hp : p a = false) : a ∈ l.dropWhile p := by
  induction l with
  | nil => cases h
  | cons x xs ih =>
    rw [List.dropWhile_cons]
    cases hx : p x with
    | true =>
      simp only [hx, if_true]
      rcases List.mem_cons.mp h with rfl | hmem
      · rw [hp] at hx; cases hx
      · exact ih hmem
    | false => simpa using h

theorem pyStrip_ne_nil {l : List Char} {a : Char} (h : a ∈ l)
    (hp : pyIsSpace a = false) : pyStrip l ≠ [] := by
  unfold pyStrip
  intro hnil
  rw [List.reverse_eq_nil_iff] at hnil
  have h2 := mem_dropWhile_of pyIsSpace
    (List.mem_reverse.mpr (mem_dropWhile_of pyIsSpace h hp)) hp
  rw [hnil] at h2
  cases h2

theorem pyStrip_lastNotSpace (l : List Char) : lastNotSpace (pyStrip l) := by
  intro a ha
  unfold pyStrip at ha
  rw [List.getLast?_reverse] at ha
  have h := List.head?_dropWhile_not pyIsSpace (l.dropWhile pyIsSpace).reverse
  rw [ha] at h
  exact h

theorem lastNotSpace_append_right {l l' : List Char} (h : lastNotSpace l')
    (h' : l' ≠ []) : lastNotSpace (l ++ l') := by
  intro a ha
  rw [List.getLast?_append] at ha
  apply h
  cases hl' : l'.getLast? with
  | none => exact absurd (List.getLast?_eq_none_iff.mp hl') h'
  | some b => rw [hl'] at ha; simpa [hl'] using ha

theorem lastNotSpace.strip_ne_nil {l : List Char} (h : lastNotSpace l)
    (hne : l ≠ []) : pyStrip l ≠ [] := by
  cases hl : l.getLast? with
  | none => exact absurd (List.getLast?_eq_none_iff.mp hl) hne
  | some a => exact pyStrip_ne_nil (List.mem_of_getLast?_eq_some hl) (h a hl)

/-! ## Lemmas on forceSplit -/

theorem forceSplitGo_flatten (fuel m : Nat) : ∀ s : List Char,
    (forceSplitGo fuel m s).1.flatten ++ (forceSplitGo fuel m s).2 = s := by
  induction fuel with
  | zero => intro s; simp [forceSplitGo]
  | succ fuel ih =>
    intro s
    rw [forceSplitGo]
    by_cases h : 0 < m ∧ m < s.length
    · rw [if_pos h]
      simp only [List.flatten_cons, List.append_assoc]
      rw [ih (s.drop m)]
      exact List.take_append_drop m s
    · rw [if_neg h]; simp

theorem forceSplitGo_piece_length (fuel m : Nat) : ∀ (s p : List Char),
    p ∈ (forceSplitGo fuel m s).1 → p.length = m := by
  induction fuel with
  | zero => intro s p hp; simp [forceSplitGo] at hp
  | succ fuel ih =>
    intro s p hp
    rw [forceSplitGo] at hp
    by_cases h : 0 < m ∧ m < s.length
    · rw [if_pos h] at hp
      rcases List.mem_cons.mp hp with rfl | hp
      · rw [List.length_take]; omega
      · exact ih _ _ hp
    · rw [if_neg h] at hp; cases hp

theorem forceSplitGo_rest_length (m : Nat) (hm : 0 < m) : ∀ (fuel : Nat) (s : List Char),
    s.length ≤ fuel * m → ((forceSplitGo fuel m s).2).length ≤ m := by
  intro fuel
  induction fuel with
  | zero => intro s hs; simp only [forceSplitGo]; omega
  | succ fuel ih =>
    intro s hs
    rw [forceSplitGo]
    by_cases h : 0 < m ∧ m < s.length
    · rw [if_pos h]
      apply ih
      rw [List.length_drop]
      rw [Nat.succ_mul] at hs
      omega
    · rw [if_neg h]
      by_cases hlen : m < s.length
      · exact absurd ⟨hm, hlen⟩ h
      · simpa using Nat.le_of_not_lt hlen

theorem forceSplit_flatten (m : Nat) (s : List Char) :
    (forceSplit m s).1.flatten ++ (forceSplit m s).2 = s :=
  forceSplitGo_flatten s.length m s

theorem forceSplit_rest_length (m : Nat) (hm : 0 < m) (s : List Char) :
    ((forceSplit m s).2).length ≤ m := by
  apply forceSplitGo_rest_length m hm
  calc s.length = s.length * 1 := (Nat.mul_one _).symm
    _ ≤ s.length * m := Nat.mul_le_mul_left _ hm

/-! ## C7: every chunk of split_text_smart has length at most max_chars -/

theorem packStep_length_le {m : Nat} (hm : 1 ≤ m)
    {acc : List (List Char) × List Char} {s : List Char}
    (hchunks : ∀ c ∈ acc.1, c.length ≤ m) (hcur : acc.2.length ≤ m) :
    (∀ c ∈ (packStep m acc s).1, c.length ≤ m) ∧
      (packStep m acc s).2.length ≤ m := by
  have hflush : ∀ c ∈ (if acc.2 ≠ [] then acc.1 ++ [pyStrip acc.2] else acc.1),
      c.length ≤ m := by
    intro c hc
    by_cases h2 : acc.2 ≠ []
    · rw [if_pos h2] at hc
      rcases List.mem_append.mp hc with hc | hc
      · exact hchunks c hc
      · rw [List.mem_singleton.mp hc]
        exact le_trans (pyStrip_length_le _) hcur
    · rw [if_neg h2] at hc
      exact hchunks c hc
  unfold packStep
  by_cases h1 : m < s.length
  · rw [if_pos h1]
    refine ⟨?_, forceSplit_rest_length m (by omega) s⟩
    intro c hc
    rcases List.mem_append.mp hc with hc | hc
    · exact hflush c hc
    · rw [forceSplitGo_piece_length s.length m s c hc]
  · rw [if_neg h1]
    by_cases h2 : acc.2.length + s.length ≤ m
    · rw [if_pos h2]
      exact ⟨hchunks, by simpa using h2⟩
    · rw [if_neg h2]
      exact ⟨hflush, by simpa using Nat.le_of_not_lt h1⟩

theorem foldl_pack_length {m : Nat} (hm : 1 ≤ m) :
    ∀ (ss : List (List Char)) (acc : List (List Char) × List Char),
    (∀ c ∈ acc.1, c.length ≤ m) → acc.2.length ≤ m →
    (∀ c ∈ (ss.foldl (packStep m) acc).1, c.length ≤ m) ∧
      (ss.foldl (packStep m) acc).2.length ≤ m := by
  intro ss
  induction ss with
  | nil => intro acc h1 h2; exact ⟨h1, h2⟩
  | cons s ss ih =>
    intro acc h1 h2
    rw [List.foldl_cons]
    have hstep := packStep_length_le hm h1 h2 (s := s)
    exact ih _ hstep.1 hstep.2

/-- C7: for every input text and every `max_chars ≥ 1`, every chunk returned
by `split_text_smart(text, max_chars)` has length at most `max_chars`. -/
theorem split_text_smart_chunk_length (text : List Char) (max_chars : Nat)
    (h : 1 ≤ max_chars) :
    ∀ chunk ∈ split_text_smart text max_chars, chunk.length ≤ max_chars := by
  unfold split_text_smart
  by_cases h0 : text = []
  · simp [h0]
  · rw [if_neg h0]
    by_cases h1 : text.length ≤ max_chars
    · rw [if_pos h1]
      intro c hc
      rw [List.mem_singleton.mp hc]
      exact h1
    · rw [if_neg h1]
      intro c hc
      have hfold := foldl_pack_length h (scanSentences text) ([], [])
        (by intro c hc; cases hc) (by simp)
      unfold finalizeChunks at hc
      by_cases h2 : pyStrip ((scanSentences text).foldl (packStep max_chars) ([], [])).2 ≠ []
      · rw [if_pos h2] at hc
        rcases List.mem_append.mp hc with hc | hc
        · exact hfold.1 c hc
        · rw [List.mem_singleton.mp hc]
          exact le_trans (pyStrip_length_le _) hfold.2
      · rw [if_neg h2] at hc
        exact hfold.1 c hc

/-- Witness for C7 at a concrete input. -/
theorem split_text_smart_chunk_length_witness :
    1 ≤ 2 ∧ ['あ', 'い'] ∈ split_text_smart ['あ', 'い', 'う', 'え', 'お'] 2 ∧
      (['あ', 'い'] : List Char).length ≤ 2 :=
  ⟨by decide, by decide,
   split_text_smart_chunk_length ['あ', 'い', 'う', 'え', 'お'] 2 (by decide)
     ['あ', 'い'] (by decide)⟩

/-! ## C8: degenerate cases and non-empty chunks -/

theorem lastNotSpace_append {l l' : List Char} (h : lastNotSpace l)
    (h' : lastNotSpace l') : lastNotSpace (l ++ l') := by
  intro a ha
  rw [List.getLast?_append] at ha
  cases hl' : l'.getLast? with
  | none => rw [hl'] at ha; exact h a (by simpa using ha)
  | some b => rw [hl'] at ha; exact h' a (by rw [hl']; simpa using ha)

theorem lastNotSpace_nil : lastNotSpace ([] : List Char) := by
  intro a ha
  simp at ha

theorem forceSplit_rest_lastNotSpace {m : Nat} {s : List Char}
    (hs : lastNotSpace s) : lastNotSpace (forceSplit m s).2 := by
  intro a ha
  apply hs
  rw [← forceSplit_flatten m s, List.getLast?_append, ha]
  rfl

theorem scan_foldl_lastNotSpace : ∀ (cs : List Char)
    (acc : List (List Char) × List Char),
    (∀ s ∈ acc.1, lastNotSpace s) →
    ∀ s ∈ (cs.foldl scanStep acc).1, lastNotSpace s := by
  intro cs
  induction cs with
  | nil => intro acc h; exact h
  | cons c cs ih =>
    intro acc h
    rw [List.foldl_cons]
    apply ih
    unfold scanStep
    by_cases hc : c ∈ sentenceTerminators
    · rw [if_pos hc]
      intro s hs
      rcases List.mem_append.mp hs with hs | hs
      · exact h s hs
      · rw [List.mem_singleton.mp hs]
        exact pyStrip_lastNotSpace _
    · rw [if_neg hc]
      exact h

theorem scanSentences_lastNotSpace (text : List Char) :
    ∀ s ∈ (scanSentences text), lastNotSpace s := by
  intro s hs
  unfold scanSentences finalizeChunks at hs
  by_cases h2 : pyStrip (text.foldl scanStep ([], [])).2 ≠ []
  · rw [if_pos h2] at hs
    rcases List.mem_append.mp hs with hs | hs
    · exact scan_foldl_lastNotSpace text ([], []) (by intro s hs; cases hs) s hs
    · rw [List.mem_singleton.mp hs]
      exact pyStrip_lastNotSpace _
  · rw [if_neg h2] at hs
    exact scan_foldl_lastNotSpace text ([], []) (by intro s hs; cases hs) s hs

theorem packStep_ne_nil {m : Nat} (hm : 1 ≤ m)
    {acc : List (List Char) × List Char} {s : List Char}
    (hs : lastNotSpace s)
    (hchunks : ∀ c ∈ acc.1, c ≠ []) (hcur : lastNotSpace acc.2) :
    (∀ c ∈ (packStep m acc s).1, c ≠ []) ∧ lastNotSpace (packStep m acc s).2 := by
  have hflush : ∀ c ∈ (if acc.2 ≠ [] then acc.1 ++ [pyStrip acc.2] else acc.1),
      c ≠ [] := by
    intro c hc
    by_cases h2 : acc.2 ≠ []
    · rw [if_pos h2] at hc
      rcases List.mem_append.mp hc with hc | hc
      · exact hchunks c hc
      · rw [List.mem_singleton.mp hc]
        exact hcur.strip_ne_nil h2
    · rw [if_neg h2] at hc
      exact hchunks c hc
  unfold packStep
  by_cases h1 : m < s.length
  · rw [if_pos h1]
    refine ⟨?_, forceSplit_rest_lastNotSpace hs⟩
    intro c hc
    rcases List.mem_append.mp hc with hc | hc
    · exact hflush c hc
    · have := forceSplitGo_piece_length s.length m s c hc
      intro hnil
      rw [hnil] at this
      simp at this
      omega
  · rw [if_neg h1]
    by_cases h2 : acc.2.length + s.length ≤ m
    · rw [if_pos h2]
      exact ⟨hchunks, lastNotSpace_append hcur hs⟩
    · rw [if_neg h2]
      exact ⟨hflush, hs⟩

theorem foldl_pack_ne_nil {m : Nat} (hm : 1 ≤ m) :
    ∀ (ss : List (List Char)) (acc : List (List Char) × List Char),
    (∀ s ∈ ss, lastNotSpace s) →
    (∀ c ∈ acc.1, c ≠ []) → lastNotSpace acc.2 →
    (∀ c ∈ (ss.foldl (packStep m) acc).1, c ≠ []) ∧
      lastNotSpace (ss.foldl (packStep m) acc).2 := by
  intro ss
  induction ss with
  | nil => intro acc _ h1 h2; exact ⟨h1, h2⟩
  | cons s ss ih =>
    intro acc hss h1 h2
    rw [List.foldl_cons]
    have hstep := packStep_ne_nil hm (hss s (List.mem_cons_self s ss)) h1 h2
    exact ih _ (fun t ht => hss t (List.mem_cons_of_mem s ht)) hstep.1 hstep.2

/-- C8: `split_text_smart` handles the degenerate cases exactly: empty input
gives the empty sequence; non-empty input of length at most `max_chars` gives
the single-element sequence holding the input verbatim; and (for
`max_chars ≥ 1`, without which the source loop does not terminate) no
returned chunk is empty. -/
theorem split_text_smart_edge_cases (text : List Char) (max_chars : Nat) :
    split_text_smart [] max_chars = [] ∧
    (text ≠ [] → text.length ≤ max_chars →
      split_text_smart text max_chars = [text]) ∧
    (1 ≤ max_chars → ∀ chunk ∈ split_text_smart text max_chars, chunk ≠ []) := by
  refine ⟨by simp [split_text_smart], ?_, ?_⟩
  · intro h0 h1
    unfold split_text_smart
    rw [if_neg h0, if_pos h1]
  · intro hm c hc
    unfold split_text_smart at hc
    by_cases h0 : text = []
    · rw [if_pos h0] at hc; cases hc
    · rw [if_neg h0] at hc
      by_cases h1 : text.length ≤ max_chars
      · rw [if_pos h1] at hc
        rw [List.mem_singleton.mp hc]
        exact h0
      · rw [if_neg h1] at hc
        have hfold := foldl_pack_ne_nil hm (scanSentences text) ([], [])
          (scanSentences_lastNotSpace text) (by intro c hc; cases hc)
          lastNotSpace_nil
        unfold finalizeChunks at hc
        by_cases h2 :
            pyStrip ((scanSentences text).foldl (packStep max_chars) ([], [])).2 ≠ []
        · rw [if_pos h2] at hc
          rcases List.mem_append.mp hc with hc | hc
          · exact hfold.1 c hc
          · rw [List.mem_singleton.mp hc]
            exact h2
        · rw [if_neg h2] at hc
          exact hfold.1 c hc

/-- Witness for C8 at concrete inputs. -/
theorem split_text_smart_edge_cases_witness :
    split_text_smart [] 2 = [] ∧
    split_text_smart ['あ', 'い'] 2 = [['あ', 'い']] ∧
    (['あ', 'い'] : List Char) ≠ [] :=
  ⟨(split_text_smart_edge_cases ['あ', 'い'] 2).1,
   (split_text_smart_edge_cases ['あ', 'い'] 2).2.1 (by decide) (by decide),
   (split_text_smart_edge_cases ['あ', 'い'] 5).2.2 (by decide) ['あ', 'い']
     (by decide)⟩

/-! ## C2: concatenation of the chunks versus the input

The round-trip fails in general: the scanning loop appends
`temp_sentence.strip()`, so whitespace at sentence boundaries is dropped
(e.g. the `\n` terminator itself).  It holds exactly on inputs without
whitespace characters, which is also the only situation the repository's own
test exercises. -/

/-- C2 counterexample: for the input `"ab\n"` with `max_chars = 2 ≥ 1`,
concatenating the chunks gives `"ab"`, not the input — the trailing newline
is dropped by `strip()`. -/
theorem split_text_smart_roundtrip_cex :
    1 ≤ 2 ∧ split_text_smart ['a', 'b', '\n'] 2 = [['a', 'b']] ∧
      (split_text_smart ['a', 'b', '\n'] 2).flatten ≠ ['a', 'b', '\n'] := by
  refine ⟨by decide, by decide, by decide⟩

theorem scanStep_term (acc : List (List Char) × List Char) (c : Char)
    (h : c ∈ sentenceTerminators) :
    scanStep acc c = (acc.1 ++ [pyStrip (acc.2 ++ [c])], []) := by
  unfold scanStep
  rw [if_pos h]

theorem scanStep_plain (acc : List (List Char) × List Char) (c : Char)
    (h : c ∉ sentenceTerminators) :
    scanStep acc c = (acc.1, acc.2 ++ [c]) := by
  unfold scanStep
  rw [if_neg h]

theorem packStep_long {m : Nat} (acc : List (List Char) × List Char)
    (s : List Char) (h : m < s.length) :
    packStep m acc s =
      ((if acc.2 ≠ [] then acc.1 ++ [pyStrip acc.2] else acc.1) ++
        (forceSplit m s).1, (forceSplit m s).2) := by
  unfold packStep
  rw [if_pos h]

theorem packStep_fits {m : Nat} (acc : List (List Char) × List Char)
    (s : List Char) (h : ¬ m < s.length) (h2 : acc.2.length + s.length ≤ m) :
    packStep m acc s = (acc.1, acc.2 ++ s) := by
  unfold packStep
  rw [if_neg h, if_pos h2]

theorem packStep_over {m : Nat} (acc : List (List Char) × List Char)
    (s : List Char) (h : ¬ m < s.length) (h2 : ¬ acc.2.length + s.length ≤ m) :
    packStep m acc s =
      (if acc.2 ≠ [] then acc.1 ++ [pyStrip acc.2] else acc.1, s) := by
  unfold packStep
  rw [if_neg h, if_neg h2]

theorem scan_foldl_flatten :
    ∀ (cs : List Char), (∀ c ∈ cs, pyIsSpace c = false) →
    ∀ (acc : List (List Char) × List Char), (∀ c ∈ acc.2, pyIsSpace c = false) →
    ((cs.foldl scanStep acc).1.flatten ++ (cs.foldl scanStep acc).2 =
      acc.1.flatten ++ acc.2 ++ cs) ∧
    (∀ c ∈ (cs.foldl scanStep acc).2, pyIsSpace c = false) := by
  intro cs
  induction cs with
  | nil => intro _ acc hacc; simpa using hacc
  | cons c cs ih =>
    intro hcs acc hacc
    have hc : pyIsSpace c = false := hcs c (List.mem_cons_self c cs)
    have hcs' : ∀ c ∈ cs, pyIsSpace c = false :=
      fun d hd => hcs d (List.mem_cons_of_mem c hd)
    have htemp : ∀ d ∈ acc.2 ++ [c], pyIsSpace d = false := by
      intro d hd
      rcases List.mem_append.mp hd with hd | hd
      · exact hacc d hd
      · rw [List.mem_singleton.mp hd]; exact hc
    rw [List.foldl_cons]
    by_cases hterm : c ∈ sentenceTerminators
    · rw [scanStep_term acc c hterm]
      have := ih hcs' (acc.1 ++ [pyStrip (acc.2 ++ [c])], []) (by intro d hd; cases hd)
      refine ⟨?_, this.2⟩
      rw [this.1]
      simp [pyStrip_eq_self htemp, List.append_assoc]
    · rw [scanStep_plain acc c hterm]
      have := ih hcs' (acc.1, acc.2 ++ [c]) htemp
      refine ⟨?_, this.2⟩
      rw [this.1]
      simp [List.append_assoc]

theorem scanSentences_flatten (text : List Char)
    (h : ∀ c ∈ text, pyIsSpace c = false) :
    (scanSentences text).flatten = text ∧
    (∀ s ∈ scanSentences text, ∀ c ∈ s, pyIsSpace c = false) := by
  have hall : ∀ s ∈ (text.foldl scanStep ([], [])).1, ∀ c ∈ s, pyIsSpace c = false := by
    intro s hs c hc
    have hlast := scan_foldl_lastNotSpace text ([], []) (by intro s hs; cases hs)
    have hmem : c ∈ (text.foldl scanStep ([], [])).1.flatten ++
        (text.foldl scanStep ([], [])).2 :=
      List.mem_append.mpr (Or.inl (List.mem_flatten_of_mem hs hc))
    rw [(scan_foldl_flatten text h ([], []) (by intro d hd; cases hd)).1] at hmem
    exact h c (by simpa using hmem)
  have hfold := scan_foldl_flatten text h ([], []) (by intro d hd; cases hd)
  have hcur : pyStrip (text.foldl scanStep ([], [])).2 =
      (text.foldl scanStep ([], [])).2 := pyStrip_eq_self hfold.2
  unfold scanSentences finalizeChunks
  rw [hcur]
  by_cases h2 : (text.foldl scanStep ([], [])).2 ≠ []
  · rw [if_pos h2]
    constructor
    · rw [List.flatten_append]
      simpa using hfold.1
    · intro s hs
      rcases List.mem_append.mp hs with hs | hs
      · exact hall s hs
      · rw [List.mem_singleton.mp hs]
        exact hfold.2
  · rw [if_neg h2]
    push_neg at h2
    constructor
    · have := hfold.1
      rw [h2] at this
      simpa using this
    · exact hall

theorem pack_foldl_flatten {m : Nat} :
    ∀ (ss : List (List Char)), (∀ s ∈ ss, ∀ c ∈ s, pyIsSpace c = false) →
    ∀ (acc : List (List Char) × List Char), (∀ c ∈ acc.2, pyIsSpace c = false) →
    ((ss.foldl (packStep m) acc).1.flatten ++ (ss.foldl (packStep m) acc).2 =
      acc.1.flatten ++ acc.2 ++ ss.flatten) ∧
    (∀ c ∈ (ss.foldl (packStep m) acc).2, pyIsSpace c = false) := by
  intro ss
  induction ss with
  | nil => intro _ acc hacc; simpa using hacc
  | cons s ss ih =>
    intro hss acc hacc
    have hs : ∀ c ∈ s, pyIsSpace c = false := hss s (List.mem_cons_self s ss)
    have hss' : ∀ t ∈ ss, ∀ c ∈ t, pyIsSpace c = false :=
      fun t ht => hss t (List.mem_cons_of_mem s ht)
    have hflushflat : (if acc.2 ≠ [] then acc.1 ++ [pyStrip acc.2] else acc.1).flatten =
        acc.1.flatten ++ acc.2 := by
      by_cases h2 : acc.2 ≠ []
      · rw [if_pos h2, List.flatten_append, pyStrip_eq_self hacc]
        simp
      · rw [if_neg h2]
        push_neg at h2
        rw [h2]
        simp
    rw [List.foldl_cons]
    by_cases h1 : m < s.length
    · rw [packStep_long acc s h1]
      have hrest : ∀ c ∈ (forceSplit m s).2, pyIsSpace c = false := by
        intro c hc
        apply hs
        rw [← forceSplit_flatten m s]
        exact List.mem_append.mpr (Or.inr hc)
      have := ih hss' ((if acc.2 ≠ [] then acc.1 ++ [pyStrip acc.2] else acc.1) ++
        (forceSplit m s).1, (forceSplit m s).2) hrest
      refine ⟨?_, this.2⟩
      rw [this.1, List.flatten_append, hflushflat, List.flatten_cons]
      simp only [List.append_assoc]
      rw [← List.append_assoc ((forceSplit m s).1.flatten) ((forceSplit m s).2)
        ss.flatten, forceSplit_flatten m s]
    · by_cases h2 : acc.2.length + s.length ≤ m
      · rw [packStep_fits acc s h1 h2]
        have htemp : ∀ c ∈ acc.2 ++ s, pyIsSpace c = false := by
          intro c hc
          rcases List.mem_append.mp hc with hc | hc
          · exact hacc c hc
          · exact hs c hc
        have := ih hss' (acc.1, acc.2 ++ s) htemp
        refine ⟨?_, this.2⟩
        rw [this.1]
        simp [List.append_assoc]
      · rw [packStep_over acc s h1 h2]
        have := ih hss'
          (if acc.2 ≠ [] then acc.1 ++ [pyStrip acc.2] else acc.1, s) hs
        refine ⟨?_, this.2⟩
        rw [this.1, hflushflat]
        simp [List.append_assoc]

/-- C2 amended: for every input containing no whitespace characters and every
`max_chars ≥ 1`, concatenating the chunks of `split_text_smart` reproduces
the input exactly.  (On inputs with whitespace, the `strip()` calls of the
scanning and packing loops may drop whitespace at sentence boundaries, as the
counterexample shows.) -/
theorem split_text_smart_flatten_nospace (text : List Char) (max_chars : Nat)
    (hm : 1 ≤ max_chars) (h : ∀ c ∈ text, pyIsSpace c = false) :
    (split_text_smart text max_chars).flatten = text := by
  unfold split_text_smart
  by_cases h0 : text = []
  · rw [if_pos h0, h0]
    rfl
  · rw [if_neg h0]
    by_cases h1 : text.length ≤ max_chars
    · rw [if_pos h1]
      simp
    · rw [if_neg h1]
      have hscan := scanSentences_flatten text h
      have hpack := pack_foldl_flatten (m := max_chars) (scanSentences text)
        hscan.2 ([], []) (by intro d hd; cases hd)
      have hcur : pyStrip ((scanSentences text).foldl (packStep max_chars) ([], [])).2 =
          ((scanSentences text).foldl (packStep max_chars) ([], [])).2 :=
        pyStrip_eq_self hpack.2
      unfold finalizeChunks
      rw [hcur]
      by_cases h2 : ((scanSentences text).foldl (packStep max_chars) ([], [])).2 ≠ []
      · rw [if_pos h2, List.flatten_append]
        have := hpack.1
        simp only [List.flatten_nil, List.nil_append] at this
        rw [hscan.1] at this
        simpa using this
      · rw [if_neg h2]
        push_neg at h2
        have := hpack.1
        rw [h2] at this
        simp only [List.flatten_nil, List.nil_append, List.append_nil] at this
        rw [hscan.1] at this
        exact this

/-- Witness for the amended C2 at a concrete input. -/
theorem split_text_smart_flatten_nospace_witness :
    (split_text_smart ['あ', 'い', 'う', 'え', 'お'] 2).flatten =
      ['あ', 'い', 'う', 'え', 'お'] :=
  split_text_smart_flatten_nospace ['あ', 'い', 'う', 'え', 'お'] 2
    (by decide) (by decide)

/-! ## C10: load_env_file never overwrites an existing variable -/

theorem lookup_append_left {k v : List Char} {env l' : Env}
    (h : List.lookup k env = some v) : List.lookup k (env ++ l') = some v := by
  induction env with
  | nil => simp [List.lookup] at h
  | cons a env ih =>
    obtain ⟨k', v'⟩ := a
    rw [List.cons_append]
    simp only [List.lookup] at h ⊢
    cases hk : k == k' with
    | false => simp only [hk] at h ⊢; exact ih h
    | true => simp only [hk] at h ⊢; exact h

theorem envProcessLine_preserves {env : Env} {line : List Char}
    {k v : List Char} (h : List.lookup k env = some v) :
    List.lookup k (envProcessLine env line) = some v := by
  unfold envProcessLine
  by_cases h1 : pyStrip line ≠ [] ∧ (pyStrip line).head? ≠ some '#' ∧
      '=' ∈ pyStrip line
  · rw [if_pos h1]
    by_cases h2 : (List.lookup (pyStrip ((pyStrip line).takeWhile (· != '='))) env).isNone
    · rw [if_pos h2]
      exact lookup_append_left h
    · rw [if_neg h2]
      exact h
  · rw [if_neg h1]
    exact h

/-- C10: `load_env_file` never overwrites an existing environment variable:
every binding present before the call has the same value after it (a key
parsed from the `.env` file is set only when absent). -/
theorem load_env_file_no_overwrite (lines : List (List Char)) (env : Env)
    (k v : List Char) (h : List.lookup k env = some v) :
    List.lookup k (load_env_file lines env) = some v := by
  unfold load_env_file
  induction lines generalizing env with
  | nil => exact h
  | cons line lines ih =>
    rw [List.foldl_cons]
    exact ih _ (envProcessLine_preserves h)

/-- Witness for C10: the `.env` line `A=2` does not overwrite the existing
binding `A=1`; a fresh key `B` may be added. -/
theorem load_env_file_no_overwrite_witness :
    List.lookup ['A']
      (load_env_file [['A', '=', '2'], ['B', '=', '3']] [(['A'], ['1'])]) =
      some ['1'] :=
  load_env_file_no_overwrite [['A', '=', '2'], ['B', '=', '3']]
    [(['A'], ['1'])] ['A'] ['1'] (by decide)

/-! ## C4: the chunk loop does not stop after a cancelled chunk -/

/-- C4 counterexample: on a 3-chunk message whose second chunk's playback is
cancelled, chunk 3 is still synthesized and played — the loop at
claude_code_speaker.py lines 293-305 never inspects the playback outcome, so
cancellation is chunk-scoped here, not message-scoped. -/
theorem sequencer_plays_chunk_after_cancel_cex :
    split_text_smart ['あ', 'あ', '。', 'い', 'い', '。', 'う', 'う', '。'] 3 =
      [['あ', 'あ', '。'], ['い', 'い', '。'], ['う', 'う', '。']] ∧
    handle_claude_response_tts_plays
        ['あ', 'あ', '。', 'い', 'い', '。', 'う', 'う', '。'] 3
        (fun i => if i = 2 then PlayOutcome.cancelled else PlayOutcome.completed) =
      [(1, PlayOutcome.completed), (2, PlayOutcome.cancelled),
       (3, PlayOutcome.completed)] ∧
    3 ∈ (handle_claude_response_tts_plays
        ['あ', 'あ', '。', 'い', 'い', '。', 'う', 'う', '。'] 3
        (fun i => if i = 2 then PlayOutcome.cancelled else PlayOutcome.completed)).map
        Prod.fst := by
  refine ⟨by decide, by decide, by decide⟩

theorem sequencerRun_indices (outcome : Nat → PlayOutcome) :
    ∀ (cs : List (List Char)) (i : Nat),
    (sequencerRun outcome i cs).map Prod.fst = List.range' i cs.length := by
  intro cs
  induction cs with
  | nil => intro i; rfl
  | cons c cs ih =>
    intro i
    rw [sequencerRun, List.map_cons, List.length_cons, List.range'_succ, ih]

/-- C4 amended: cancellation is chunk-scoped in this code: whatever the
playback outcomes are — in particular when an earlier chunk's playback ends
cancelled — every chunk of the message is synthesized and played, in order.
-/
theorem handle_tts_plays_every_chunk (content : List Char) (max_chars : Nat)
    (outcome : Nat → PlayOutcome) :
    (handle_claude_response_tts_plays content max_chars outcome).map Prod.fst =
      List.range' 1 (split_text_smart content max_chars).length :=
  sequencerRun_indices outcome (split_text_smart content max_chars) 1

/-! ## C9: synthesize_speech ignores speaking_rate and emotional_intensity -/

/-- C9: the payload `synthesize_speech` sends does not depend on its
`speaking_rate` and `emotional_intensity` arguments — two calls differing
only there build identical payloads — while `synthesize_and_stream`'s
payload does depend on them. -/
theorem synthesize_speech_payload_rate_independent :
    (∀ (text model_uuid : String) (speaker_uuid style_name : Option String)
       (output_format : String) (r1 e1 r2 e2 vol : Rat),
       synthesize_speech_payload text model_uuid speaker_uuid style_name
         output_format r1 e1 vol =
       synthesize_speech_payload text model_uuid speaker_uuid style_name
         output_format r2 e2 vol) ∧
    synthesize_and_stream_payload "t" "m" none none "mp3" 1 1 1 ≠
      synthesize_and_stream_payload "t" "m" none none "mp3" 2 1 1 := by
  constructor
  · intro text model_uuid speaker_uuid style_name output_format r1 e1 r2 e2 vol
    rfl
  · decide

/-! ## C5: error classification of synthesize_speech -/

/-- C5: an HTTP 401 raises the application error categorized (by the
`error_messages` dictionary keyed on the reported status) as the
authentication failure; HTTP 503 the service-unavailable category; and a 200
response whose body parses as a JSON object with `status_code` 400 and a
`detail` field raises an application error reporting status 400, the same
category as an explicit HTTP 400 status. -/
theorem synthesize_speech_error_classification :
    (∀ r : HttpResponse, r.status_code = 401 →
       synthesize_speech_result r =
         Except.error (SynthError.httpError 401 r.text)) ∧
    error_messages 401 =
      some "認証エラー (401 Unauthorized)。AIVIS_API_KEY環境変数を確認してください。" ∧
    (∀ r : HttpResponse, r.status_code = 503 →
       synthesize_speech_result r =
         Except.error (SynthError.httpError 503 r.text)) ∧
    error_messages 503 =
      some "Aivis Cloud APIで障害が発生しています (503 Service Unavailable)。しばらく時間を置いてから再度お試しください。" ∧
    (∀ (r : HttpResponse) (d : String),
       r.status_code = 200 → r.json_error = some (400, d) →
       ∃ e : SynthError, synthesize_speech_result r = Except.error e ∧
         e.reportedStatus = 400) ∧
    (∀ r : HttpResponse, r.status_code = 400 →
       ∃ e : SynthError, synthesize_speech_result r = Except.error e ∧
         e.reportedStatus = 400) := by
  refine ⟨?_, rfl, ?_, rfl, ?_, ?_⟩
  · intro r h
    unfold synthesize_speech_result
    rw [h]
    rfl
  · intro r h
    unfold synthesize_speech_result
    rw [h]
    rfl
  · intro r d h hj
    refine ⟨SynthError.bodyJsonError 400 d, ?_, rfl⟩
    unfold synthesize_speech_result
    rw [h, hj]
    rfl
  · intro r h
    refine ⟨SynthError.httpError 400 r.text, ?_, rfl⟩
    unfold synthesize_speech_result
    rw [h]
    rfl

/-- Witness for C5 at concrete responses. -/
theorem synthesize_speech_error_classification_witness :
    synthesize_speech_result ⟨401, "auth", [], none⟩ =
      Except.error (SynthError.httpError 401 "auth") ∧
    synthesize_speech_result ⟨503, "down", [], none⟩ =
      Except.error (SynthError.httpError 503 "down") ∧
    (∃ e : SynthError,
      synthesize_speech_result ⟨200, "", [], some (400, "bad text")⟩ =
        Except.error e ∧ e.reportedStatus = 400) ∧
    (∃ e : SynthError,
      synthesize_speech_result ⟨400, "bad", [], none⟩ =
        Except.error e ∧ e.reportedStatus = 400) :=
  ⟨synthesize_speech_error_classification.1 ⟨401, "auth", [], none⟩ rfl,
   synthesize_speech_error_classification.2.2.1 ⟨503, "down", [], none⟩ rfl,
   synthesize_speech_error_classification.2.2.2.2.1
     ⟨200, "", [], some (400, "bad text")⟩ "bad text" rfl rfl,
   synthesize_speech_error_classification.2.2.2.2.2
     ⟨400, "bad", [], none⟩ rfl⟩

/-! ## C1, C6, C3: the TTS process-management state machine -/

theorem killCurrentTts_frame (s : SpeakerState) :
    (killCurrentTts s).playingThreads = s.playingThreads ∧
    (killCurrentTts s).tempFiles = s.tempFiles ∧
    (killCurrentTts s).unlinkedFiles = s.unlinkedFiles ∧
    (killCurrentTts s).nextPid = s.nextPid := by
  cases hc : s.currentTtsProcess with
  | none => simp [killCurrentTts, hc]
  | some p =>
    by_cases hp : p ∈ s.aliveProcs
    · simp [killCurrentTts, hc, hp]
    · simp [killCurrentTts, hc, hp]

theorem killCurrentTts_not_active (s : SpeakerState)
    (h : hasActiveTtsProcess s = true) :
    hasActiveTtsProcess (killCurrentTts s) = false := by
  cases hc : s.currentTtsProcess with
  | none => simp [hasActiveTtsProcess, hc] at h
  | some p =>
    have hp : p ∈ s.aliveProcs := by
      simpa [hasActiveTtsProcess, hc] using h
    simp [killCurrentTts, hasActiveTtsProcess, hc, hp]

/-- C1: over every interleaving of the workers, at most one playback session
is active at any reachable state (the single `current_tts_process` slot plus
liveness determines activity), and the start path of
`handle_claude_response_tts` leaves no previously active session: it first
cancels it via `_kill_current_tts`. -/
theorem single_active_session (s : SpeakerState) (h : SpeakerReachable s) :
    (∀ p q : Nat, isActiveSession s p → isActiveSession s q → p = q) ∧
    hasActiveTtsProcess (ttsStartEntry s) = false := by
  refine ⟨?_, ?_⟩
  · intro p q hp hq
    have := hp.1.symm.trans hq.1
    exact Option.some.inj this
  · unfold ttsStartEntry
    by_cases ha : hasActiveTtsProcess s = true
    · rw [if_pos ha]
      exact killCurrentTts_not_active s ha
    · rw [if_neg ha]
      exact Bool.eq_false_iff.mpr ha

/-- Witness for C1 at the initial state. -/
theorem single_active_session_witness :
    hasActiveTtsProcess (ttsStartEntry initSpeaker) = false :=
  (single_active_session initSpeaker SpeakerReachable.init).2

/-- C6: `_kill_current_tts` is idempotent: with no active session it is a
no-op, a second consecutive call changes nothing, and the call never deletes
a temp file (so in particular nothing is deleted twice), and raises no
error (every exception inside it is caught; the embedding is total). -/
theorem kill_current_tts_idempotent (s : SpeakerState) :
    (hasActiveTtsProcess s = false → killCurrentTts s = s) ∧
    killCurrentTts (killCurrentTts s) = killCurrentTts s ∧
    (killCurrentTts s).unlinkedFiles = s.unlinkedFiles := by
  rcases killCurrentTts_frame s with ⟨-, -, hunlink, -⟩
  refine ⟨?_, ?_, hunlink⟩
  · intro h
    cases hc : s.currentTtsProcess with
    | none => simp [killCurrentTts, hc]
    | some p =>
      have hp : p ∉ s.aliveProcs := by
        simpa [hasActiveTtsProcess, hc] using h
      simp [killCurrentTts, hc, hp]
  · cases hc : s.currentTtsProcess with
    | none => simp [killCurrentTts, hc]
    | some p =>
      by_cases hp : p ∈ s.aliveProcs
      · simp [killCurrentTts, hc, hp]
      · simp [killCurrentTts, hc, hp]

/-- Witness for C6 at the initial state (no session active). -/
theorem kill_current_tts_idempotent_witness :
    killCurrentTts initSpeaker = initSpeaker :=
  (kill_current_tts_idempotent initSpeaker).1 rfl

theorem speaker_inv_reachable (s : SpeakerState) (h : SpeakerReachable s) :
    SpeakerInv s := by
  induction h with
  | init =>
    exact ⟨fun p hp => (List.not_mem_nil p hp).elim, List.nodup_nil,
      List.nodup_nil, fun p hp => (List.not_mem_nil p hp).elim⟩
  | step hr hstep ih =>
    rename_i u v
    rcases ih with ⟨hsub, hnodupP, hnodupT, hbound⟩
    cases hstep with
    | startNewResponse =>
      unfold ttsStartEntry
      by_cases ha : hasActiveTtsProcess u = true
      · rw [if_pos ha]
        rcases killCurrentTts_frame u with ⟨h1, h2, -, h4⟩
        exact ⟨by rw [h1, h2]; exact hsub, by rw [h1]; exact hnodupP,
          by rw [h2]; exact hnodupT, by rw [h1, h4]; exact hbound⟩
      · rw [if_neg ha]
        exact ⟨hsub, hnodupP, hnodupT, hbound⟩
    | spawnPlayback =>
      have hfreshP : u.nextPid ∉ u.playingThreads :=
        fun hmem => lt_irrefl _ (hbound _ hmem)
      have hfreshT : u.nextPid ∉ u.tempFiles :=
        fun hmem => hfreshP (hsub _ hmem)
      refine ⟨?_, ?_, ?_, ?_⟩
      · intro p hp
        rcases List.mem_cons.mp hp with rfl | hp
        · exact List.mem_cons_self _ _
        · exact List.mem_cons_of_mem _ (hsub p hp)
      · exact List.nodup_cons.mpr ⟨hfreshP, hnodupP⟩
      · exact List.nodup_cons.mpr ⟨hfreshT, hnodupT⟩
      · intro p hp
        rcases List.mem_cons.mp hp with rfl | hp
        · exact Nat.lt_succ_self _
        · exact Nat.lt_succ_of_lt (hbound p hp)
    | installSession p hp =>
      exact ⟨hsub, hnodupP, hnodupT, hbound⟩
    | escCancel =>
      rcases killCurrentTts_frame u with ⟨h1, h2, -, h4⟩
      exact ⟨by rw [h1, h2]; exact hsub, by rw [h1]; exact hnodupP,
        by rw [h2]; exact hnodupT, by rw [h1, h4]; exact hbound⟩
    | procNaturalExit p hp =>
      exact ⟨hsub, hnodupP, hnodupT, hbound⟩
    | finishCompleted p hp hdead =>
      refine ⟨?_, hnodupP.erase p, hnodupT.erase p, ?_⟩
      · intro q hq
        rcases (hnodupT.mem_erase_iff).mp hq with ⟨hne, hqT⟩
        exact (List.mem_erase_of_ne hne).mpr (hsub q hqT)
      · intro q hq
        exact hbound q (List.mem_of_mem_erase hq)
    | finishCancelled p hp hrepl =>
      refine ⟨?_, hnodupP.erase p, hnodupT.erase p, ?_⟩
      · intro q hq
        rcases (hnodupT.mem_erase_iff).mp hq with ⟨hne, hqT⟩
        exact (List.mem_erase_of_ne hne).mpr (hsub q hqT)
      · intro q hq
        exact hbound q (List.mem_of_mem_erase hq)

/-- C3 counterexample: start a playback (spawn + install) and cancel it via
`_kill_current_tts`.  The state on the right is the state at the instant the
cancel call returns: the session is cancelled (slot empty, process dead),
but the backing temp file still exists on disk — `_kill_current_tts`
performs no unlink; deletion happens only later, when the playback routine
observes the cancellation.  This contradicts the claim that the temp file no
longer exists once the cancel operation returns. -/
theorem cancel_returns_with_temp_file_cex :
    SpeakerReachable
      (killCurrentTts ⟨some 0, [0], [0], [0], [], 1⟩) ∧
    killCurrentTts ⟨some 0, [0], [0], [0], [], 1⟩ =
      ⟨none, [], [0], [0], [], 1⟩ ∧
    (⟨none, [], [0], [0], [], 1⟩ : SpeakerState).tempFiles = [0] ∧
    hasActiveTtsProcess (⟨none, [], [0], [0], [], 1⟩ : SpeakerState) = false := by
  refine ⟨?_, by decide, rfl, rfl⟩
  have h1 : SpeakerReachable (⟨none, [0], [0], [0], [], 1⟩ : SpeakerState) :=
    SpeakerReachable.step SpeakerReachable.init
      (SpeakerStep.spawnPlayback initSpeaker)
  have h2 : SpeakerReachable (⟨some 0, [0], [0], [0], [], 1⟩ : SpeakerState) :=
    SpeakerReachable.step h1
      (SpeakerStep.installSession ⟨none, [0], [0], [0], [], 1⟩ 0 (by decide))
  exact SpeakerReachable.step h2
    (SpeakerStep.escCancel ⟨some 0, [0], [0], [0], [], 1⟩)

/-- C3 amended: the backing temp file is deleted on every exit path of the
playback routine — in every reachable state a temp file exists only for a
session whose `_play_with_library_sync` routine is still running (so once
the routine has exited, by completion or by observing cancellation, the file
is gone) — but the deletion is performed by the playback thread, not by
`_kill_current_tts`, so the file may still exist at the instant the cancel
call returns (see the counterexample). -/
theorem temp_file_lifetime (s : SpeakerState) (h : SpeakerReachable s) :
    ∀ p ∈ s.tempFiles, p ∈ s.playingThreads :=
  (speaker_inv_reachable s h).1

/-- Witness for the amended C3 at a concrete reachable state. -/
theorem temp_file_lifetime_witness :
    0 ∈ (⟨none, [0], [0], [0], [], 1⟩ : SpeakerState).playingThreads :=
  temp_file_lifetime ⟨none, [0], [0], [0], [], 1⟩
    (SpeakerReachable.step SpeakerReachable.init
      (SpeakerStep.spawnPlayback initSpeaker))
    0 (by decide)

end AibisCloudTools
